import Mathlib

/-!
Verification of the skutil/pynorm preprocessing subsystems against their
natural-language specification.

Part 1 embeds the power-transform code of
`src/pynorm/preprocessing/transform.py` (Box-Cox and Yeo-Johnson) over ℝ.
Part 2 embeds the class-balancing code of
`src/skutil/preprocessing/balance.py` over ℕ-labelled rows and ℚ ratios.

Python floats are modelled as real numbers (ℝ) for the numeric transforms and
as rationals (ℚ) for the balancing ratios (every ratio comparison in the
balancing code is order-exact at the inputs considered).  Python exceptions
are modelled with `Except`; `numpy.nan` results are modelled with `Option`
(`none` = not-a-number).  Randomness (`numpy.random.choice`,
`numpy.random.permutation`) is modelled by oracle function parameters
constrained by hypotheses (length / membership / no-duplicates), and the
claims are proved for every oracle satisfying those constraints.
-/

set_option maxRecDepth 20000

/-! ### transform.py: constants and helpers -/

/-- `ZERO = 1e-16` from transform.py line 24. -/
noncomputable def ZERO : ℝ := 1 / 10 ^ 16

/-- `_eqls(lam, v)`: `np.abs(lam) <= v` (transform.py lines 28-29). -/
def eqls (lam v : ℝ) : Prop := |lam| ≤ v

/-! ### `_yj_trans_single_x` (transform.py lines 382-398)

```python
def _yj_trans_single_x(x, lam):
    if x >= 0:
        if not _eqls(lam, ZERO):
            return (np.power(x + 1, lam) - 1.0) / lam
        return np.log(x + 1)
    else:
        if not lam == 2.0:
            denom = 2.0 - lam
            numer = np.power((-x + 1), (2.0 - lam)) - 1.0
            return -numer / denom
        return -np.log(-x + 1)
```

Note that the `x >= 0` side tests `_eqls(lam, ZERO)` (a threshold) while the
`x < 0` side tests `lam == 2.0` (exact float equality).  `np.power` on a
positive base is real exponentiation (`Real.rpow`); the bases `x + 1` and
`-x + 1` are ≥ 1 on the respective branches. -/
open Classical in
noncomputable def yjTransSingleX (x lam : ℝ) : ℝ :=
  if 0 ≤ x then
    if ¬ eqls lam ZERO then ((x + 1) ^ lam - 1) / lam
    else Real.log (x + 1)
  else
    if ¬ (lam = 2) then (-((-x + 1) ^ (2 - lam) - 1)) / (2 - lam)
    else -Real.log (-x + 1)

open Classical in
/-- The Yeo-Johnson transform exactly as claim C1 words it: piecewise on the
sign of `x`, with BOTH the "equals zero" and the "equals two" comparison
decided by the absolute-value threshold `|lam - c| ≤ 1e-16`.  This definition
follows the claim text (for the refutation); `yjTransSingleX` above follows
the source. -/
noncomputable def yjThresholdSpec (x lam : ℝ) : ℝ :=
  if 0 ≤ x then
    if ¬ (|lam - 0| ≤ ZERO) then ((x + 1) ^ lam - 1) / lam
    else Real.log (x + 1)
  else
    if ¬ (|lam - 2| ≤ ZERO) then (-((-x + 1) ^ (2 - lam) - 1)) / (2 - lam)
    else -Real.log (-x + 1)

/-! ### Box-Cox single-value transform (transform.py lines 252-267)

`_transform_y` maps `x ↦ (x^lam - 1)/lam if not _eqls(lam, ZERO) else log x`
over the column. -/

open Classical in
/-- Per-element body of `_transform_y` (transform.py line 267). -/
noncomputable def bcTransSingle (x lam : ℝ) : ℝ :=
  if ¬ eqls lam ZERO then (x ^ lam - 1) / lam else Real.log x

/-- Per-element effect of `BoxCoxTransformer.transform` (transform.py lines
222-250) on one column value: the stored shift is added (line 241) and the
Box-Cox formula applied (line 248).  The truncation statement at line 244,
`X[X[self.cols_] <= 0.0][self.cols_] = 1e-6`, assigns into the temporary
copy produced by `X[mask]` (pandas chained indexing) and never writes back
into `X`; it therefore has no effect on the transformed output and does not
appear here. -/
noncomputable def bcTransformCode (shift lam x : ℝ) : ℝ :=
  bcTransSingle (x + shift) lam

open Classical in
/-- Per-element Box-Cox transform as claim C2 words it: add the stored shift,
replace a value that is still ≤ 0 by 1e-6, then apply the formula. -/
noncomputable def bcTransformClaim (shift lam x : ℝ) : ℝ :=
  bcTransSingle (if x + shift ≤ 0 then 1 / 10 ^ 6 else x + shift) lam

/-! ### Theorems for C1 and C2 -/

/-- C1 (counterexample): the claim that BOTH boundary comparisons use the
threshold `|lam - c| ≤ 1e-16` is false on the code.  At `x = -1` and
`lam = 2 - 1e-17` (within the threshold of 2 but not equal to 2) the code
takes the power branch while the claim's thresholded transform takes the
logarithm branch, and the two values differ, since `(2^e - 1)/e > log 2`
for every `e > 0`. -/
theorem C1_yj_threshold_counterexample :
    yjTransSingleX (-1) (2 - 1 / 10 ^ 17) ≠ yjThresholdSpec (-1) (2 - 1 / 10 ^ 17) := by
  have hx : ¬ ((0 : ℝ) ≤ -1) := by norm_num
  have hlam : ¬ ((2 - 1 / 10 ^ 17 : ℝ) = 2) := by norm_num
  have hthr : |(2 - 1 / 10 ^ 17 : ℝ) - 2| ≤ ZERO := by
    rw [ZERO]
    rw [show (2 - 1 / 10 ^ 17 : ℝ) - 2 = -(1 / 10 ^ 17) by ring, abs_neg,
      abs_of_pos (by norm_num)]
    norm_num
  rw [yjTransSingleX, if_neg hx, if_pos hlam, yjThresholdSpec, if_neg hx,
    if_neg (by simpa using hthr)]
  -- reduce to `(2 ^ e - 1) / e ≠ log 2` with `e = 1e-17`
  set e : ℝ := 1 / 10 ^ 17 with he
  have hsimp1 : (-(-1 : ℝ) + 1) = 2 := by norm_num
  have hsimp2 : (2 : ℝ) - (2 - e) = e := by ring
  rw [hsimp1, hsimp2]
  have hepos : (0 : ℝ) < e := by rw [he]; norm_num
  have hlog2 : (0 : ℝ) < Real.log 2 := Real.log_pos (by norm_num)
  have hexp : Real.log 2 * e + 1 < Real.exp (Real.log 2 * e) :=
    Real.add_one_lt_exp (ne_of_gt (mul_pos hlog2 hepos))
  have hrpow : (2 : ℝ) ^ e = Real.exp (Real.log 2 * e) :=
    Real.rpow_def_of_pos (by norm_num) e
  have hgt : Real.log 2 < ((2 : ℝ) ^ e - 1) / e := by
    rw [lt_div_iff₀ hepos, hrpow]
    nlinarith [hexp]
  have hne : ((2 : ℝ) ^ e - 1) / e ≠ Real.log 2 := ne_of_gt hgt
  intro hcontra
  apply hne
  have : (-(((2:ℝ) ^ e - 1))) / e = -(((2:ℝ) ^ e - 1) / e) := by ring
  rw [this] at hcontra
  have := neg_injective hcontra
  linarith [this]

/-- C1 (amended): the Yeo-Johnson transform is piecewise as the claim lists
it, except that the "equals two" comparison on the negative branch is decided
by exact equality `lam = 2`, while only the "equals zero" comparison on the
nonnegative branch uses the absolute-value threshold `|lam| ≤ 1e-16`. -/
theorem C1_yj_piecewise (x lam : ℝ) :
    (0 ≤ x → ¬ |lam| ≤ ZERO → yjTransSingleX x lam = ((x + 1) ^ lam - 1) / lam)
    ∧ (0 ≤ x → |lam| ≤ ZERO → yjTransSingleX x lam = Real.log (x + 1))
    ∧ (x < 0 → lam ≠ 2 → yjTransSingleX x lam = (-((-x + 1) ^ (2 - lam) - 1)) / (2 - lam))
    ∧ (x < 0 → lam = 2 → yjTransSingleX x lam = -Real.log (-x + 1)) := by
  refine ⟨?_, ?_, ?_, ?_⟩
  · intro hx hl
    rw [yjTransSingleX, if_pos hx, if_pos (by simpa [eqls] using hl)]
  · intro hx hl
    rw [yjTransSingleX, if_pos hx, if_neg (by simpa [eqls] using hl)]
  · intro hx hl
    rw [yjTransSingleX, if_neg (not_le.2 hx), if_pos hl]
  · intro hx hl
    rw [yjTransSingleX, if_neg (not_le.2 hx), if_neg (by simpa using hl)]

/-- Witness for C1_yj_piecewise at `x = -1`, `lam = 2`. -/
theorem C1_yj_piecewise_witness :
    (-1 : ℝ) < 0 ∧ yjTransSingleX (-1) 2 = -Real.log (-(-1) + 1) :=
  ⟨by norm_num, (C1_yj_piecewise (-1) 2).2.2.2 (by norm_num) rfl⟩

/-- C2 (code bug): at transform time the clamp of non-positive shifted values
to 1e-6 never happens — the statement `X[X[cols] <= 0.0][cols] = 1e-6`
(transform.py line 244) mutates a temporary copy, not `X` — so a non-positive
value does reach the power/log formula.  With fitted shift 0 and lambda 1 the
code maps the value -1 to `((-1)^1 - 1)/1 = -2`, while the claimed pipeline
clamps to 1e-6 first and yields `1e-6 - 1`. -/
theorem C2_clamp_noop :
    bcTransformCode 0 1 (-1) = -2
    ∧ bcTransformClaim 0 1 (-1) = 1 / 10 ^ 6 - 1
    ∧ bcTransformCode 0 1 (-1) ≠ bcTransformClaim 0 1 (-1) := by
  have h1 : ¬ eqls (1 : ℝ) ZERO := by
    rw [eqls, ZERO, abs_of_pos (by norm_num : (0:ℝ) < 1)]
    norm_num
  have hcode : bcTransformCode 0 1 (-1) = -2 := by
    rw [bcTransformCode, bcTransSingle, if_pos h1]
    rw [show (-1 : ℝ) + 0 = -1 by ring, Real.rpow_one]
    norm_num
  have hclaim : bcTransformClaim 0 1 (-1) = 1 / 10 ^ 6 - 1 := by
    rw [bcTransformClaim, if_pos (by norm_num : (-1 : ℝ) + 0 ≤ 0),
      bcTransSingle, if_pos h1, Real.rpow_one]
    norm_num
  exact ⟨hcode, hclaim, by rw [hcode, hclaim]; norm_num⟩

/-! ### `_yj_llf` (transform.py lines 464-512)

```python
def _yj_llf(data, lmb):
    data = np.asarray(data)
    N = data.shape[0]
    if 0 == N:
        raise ValueError('data is empty')
    y = _yj_transform_y(data, lmb)
    min_d, min_y = np.min(data), np.min(y)
    if min_d < ZERO:
        shift = np.abs(min_d) + 1
        data += shift
    if min_y < ZERO:
        shift = np.abs(min_y) + 1
        y += shift
    y_mean = np.mean(y, axis = 0)
    var = np.sum((y - y_mean)**2. / N, axis = 0)
    if 0 == var:
        return np.nan
    llf = (lmb - 1) * np.sum(np.log(data), axis=0)
    llf -= N / 2.0 * np.log(var)
    return llf
```

`np.asarray(data)` does NOT copy when `data` is already an ndarray, and
`data += shift` mutates that array in place, so the shift persists in the
caller's vector.  The embedding therefore returns, besides the result, the
final contents of the caller's `data` array (second component).  The result
is `none` for the `np.nan` return. -/

/-- `np.min` of a nonempty vector (the code only reaches it when `N ≠ 0`). -/
noncomputable def listMin (l : List ℝ) : ℝ := l.foldr min (l.headD 0)

open Classical in
/-- `_yj_llf` with the final state of the caller's `data` array made explicit
(second component of the `ok` payload). -/
noncomputable def yjLlfRun (data : List ℝ) (lmb : ℝ) : Except String (Option ℝ × List ℝ) :=
  let N := data.length
  if N = 0 then Except.error "data is empty"
  else
    let y := data.map (fun x => yjTransSingleX x lmb)
    let minD := listMin data
    let minY := listMin y
    let data2 := if minD < ZERO then data.map (fun v => v + (|minD| + 1)) else data
    let y2 := if minY < ZERO then y.map (fun v => v + (|minY| + 1)) else y
    let yMean := y2.sum / (N : ℝ)
    let varv := (y2.map (fun t => (t - yMean) ^ 2 / (N : ℝ))).sum
    if varv = 0 then Except.ok (none, data2)
    else
      Except.ok
        (some ((lmb - 1) * (data2.map Real.log).sum - (N : ℝ) / 2 * Real.log varv), data2)

/-- The value returned by `_yj_llf` (`none` = `np.nan`). -/
noncomputable def yjLlf (data : List ℝ) (lmb : ℝ) : Except String (Option ℝ) :=
  (yjLlfRun data lmb).map Prod.fst

noncomputable def listMean (l : List ℝ) : ℝ := l.sum / (l.length : ℝ)

/-- Population variance: mean of squared deviations. -/
noncomputable def listVar (l : List ℝ) : ℝ :=
  (l.map (fun t => (t - listMean l) ^ 2)).sum / (l.length : ℝ)

open Classical in
/-- The Yeo-Johnson log-likelihood as the spec words it: apply the forward
transform to get `y`; if `min(data)` (respectively `min(y)`) is below the
zero threshold, shift that vector upward by `|min| + 1` for the computation;
return `(lambda - 1) * sum(log(data)) - (N/2) * log(variance(y))`;
not-a-number (`none`) when the computed variance is exactly zero; an
input-size error when the vector is empty. -/
noncomputable def yjLlfSpec (data : List ℝ) (lmb : ℝ) : Except String (Option ℝ) :=
  if data = [] then Except.error "data is empty"
  else
    let y := data.map (fun x => yjTransSingleX x lmb)
    let dataShifted :=
      if listMin data < ZERO then data.map (fun v => v + (|listMin data| + 1)) else data
    let yShifted :=
      if listMin y < ZERO then y.map (fun v => v + (|listMin y| + 1)) else y
    if listVar yShifted = 0 then Except.ok none
    else
      Except.ok
        (some ((lmb - 1) * (dataShifted.map Real.log).sum
          - (data.length : ℝ) / 2 * Real.log (listVar yShifted)))

theorem list_sum_map_div (l : List ℝ) (c : ℝ) :
    (l.map (fun t => t / c)).sum = l.sum / c := by
  induction l with
  | nil => simp
  | cons a l ih => simp [ih, add_div]

/-- C3: the value computed by `_yj_llf` is exactly the one the spec
describes: forward transform, a `|min| + 1` positivity shift of `data`
(resp. `y`) when its minimum is below the `1e-16` threshold,
`(lambda - 1) * sum(log(data)) - (N/2) * log(variance(y))`, not-a-number
(`none`) on exactly-zero variance, and an input-size error on an empty
vector. -/
theorem C3_yj_llf_refines (data : List ℝ) (lmb : ℝ) :
    yjLlf data lmb = yjLlfSpec data lmb := by
  by_cases hnil : data = []
  · subst hnil
    simp [yjLlf, yjLlfRun, yjLlfSpec, Except.map]
  · have hN : data.length ≠ 0 := by simpa [List.length_eq_zero] using hnil
    rw [yjLlf, yjLlfRun, yjLlfSpec]
    rw [if_neg hN, if_neg hnil]
    simp only [Except.map]
    set y := data.map (fun x => yjTransSingleX x lmb) with hy
    set data2 := if listMin data < ZERO then data.map (fun v => v + (|listMin data| + 1)) else data with hd2
    set y2 := if listMin y < ZERO then y.map (fun v => v + (|listMin y| + 1)) else y with hy2
    have hlen : y2.length = data.length := by
      rw [hy2]
      by_cases h : listMin y < ZERO
      · rw [if_pos h, List.length_map, hy, List.length_map]
      · rw [if_neg h, hy, List.length_map]
    have hvar : (y2.map (fun t => (t - y2.sum / (data.length : ℝ)) ^ 2 / (data.length : ℝ))).sum
        = listVar y2 := by
      rw [listVar, listMean, hlen]
      rw [show (y2.map (fun t => (t - y2.sum / (data.length : ℝ)) ^ 2 / (data.length : ℝ)))
          = ((y2.map (fun t => (t - y2.sum / (data.length : ℝ)) ^ 2)).map
              (fun t => t / (data.length : ℝ))) by rw [List.map_map]; rfl]
      rw [list_sum_map_div]
    rw [hvar]
    by_cases hv : listVar y2 = 0
    · rw [if_pos hv, if_pos hv]
    · rw [if_neg hv, if_neg hv]

/-- C4 (code bug): evaluating the Yeo-Johnson log-likelihood does NOT leave
the caller's data vector unchanged.  `data = np.asarray(data)` aliases the
ndarray that `_yj_normmax` passes on every `optimize.brent` evaluation, and
`data += shift` (transform.py line 492) adds the positivity shift in place,
so it persists into the caller's vector and into subsequent evaluations at
other lambda candidates.  On `data = [0, 2]` (minimum `0 < 1e-16`) with
`lmb = 1` the call succeeds yet leaves the caller's array as `[1, 3]`. -/
theorem C4_llf_mutation :
    yjLlfRun [0, 2] 1 = Except.ok (some 0, [1, 3]) ∧ ([1, 3] : List ℝ) ≠ [0, 2] := by
  constructor
  · have h1 : ¬ eqls (1 : ℝ) ZERO := by
      rw [eqls, ZERO, abs_one]; norm_num
    have hy0 : yjTransSingleX 0 1 = 0 := by
      rw [yjTransSingleX, if_pos le_rfl, if_pos h1, Real.rpow_one]; norm_num
    have hy2 : yjTransSingleX 2 1 = 2 := by
      rw [yjTransSingleX, if_pos (by norm_num), if_pos h1, Real.rpow_one]; norm_num
    have hmap : ([0, 2] : List ℝ).map (fun x => yjTransSingleX x 1) = [0, 2] := by
      simp [hy0, hy2]
    have hmin : listMin [0, 2] = 0 := by simp [listMin]
    simp only [yjLlfRun, hmap, hmin]
    rw [if_neg (by norm_num : ¬ ([0, 2] : List ℝ).length = 0)]
    rw [if_pos (show (0 : ℝ) < ZERO by rw [ZERO]; norm_num)]
    norm_num
  · norm_num

/-! ### balance.py: class balancing

Rows are modelled by their label column only: `target : List ℕ` gives the
label of each row position `0, …, n-1` (`target_col` in the code;
feature values are irrelevant to the index computations).  `index` models
the ascending-by-count label ordering produced by
`X[y].value_counts().sort_values(ascending=True)` in `_validate_x_y_ratio`
(balance.py lines 51-104); its relationship to `target` is captured by
`ValidIndex` below, which leaves the tie-break order of equal counts
implementation-defined exactly as pandas does.  `r : ℚ` is the `ratio`
float.  `numpy.random.choice(pool, n, …)` is an oracle
`draw : List ℕ → ℕ → List ℕ`, `numpy.random.permutation` an oracle
`permf : List ℕ → List ℕ`, both constrained by hypotheses where a claim
needs them. -/

/-- Occurrence count of label `l` (one entry of `value_counts`). -/
def cts (target : List ℕ) (l : ℕ) : ℕ := (target.filter (fun x => x = l)).length

/-- Number of label-`l` rows selected by an index list (the class count of
the materialized frame `X.iloc[out]`). -/
def labelCount (target out : List ℕ) (l : ℕ) : ℕ :=
  (out.filter (fun i => target.getD i 0 = l)).length

/-- `index` is a valid output of validation: a permutation of the distinct
labels of `target`, sorted ascending by occurrence count (ties in
implementation-defined order). -/
def ValidIndex (target index : List ℕ) : Prop :=
  List.Perm index target.dedup
    ∧ index.Pairwise (fun a b => cts target a ≤ cts target b)

/-- Errors raised by the balancing code (`ValueError` messages in
balance.py), plus the error the external `sklearn` k-NN collaborator raises
from `nn.kneighbors()` when the fitted set is too small. -/
inductive BalanceError
  | badRatio
  | tooManyClasses
  | tooFewClasses
  | singleObservation (label : ℕ)
  | knnTooFew
deriving DecidableEq

/-- `_validate_x_y_ratio` (balance.py lines 51-104) combined with
`_validate_ratio` (lines 29-33) and `_validate_num_classes` (lines 42-48):
ratio must satisfy `0 < ratio ≤ 1`, the number of distinct classes must be
between 2 and 20, and `needs_balancing` is
`cts.values[0] / cts.values[-1] < ratio` (smallest over largest count). -/
def validateXY (target index : List ℕ) (r : ℚ) : Except BalanceError Bool :=
  if r ≤ 0 ∨ 1 < r then Except.error BalanceError.badRatio
  else if 20 < index.length then Except.error BalanceError.tooManyClasses
  else if index.length < 2 then Except.error BalanceError.tooFewClasses
  else
    Except.ok
      (decide ((cts target (index.headD 0) : ℚ) / (cts target (index.getLastD 0) : ℚ) < r))

/-- `_default_indices(length, shuffle)` (balance.py lines 129-131). -/
def defaultIndices (n : ℕ) (shuffle : Bool) (permf : List ℕ → List ℕ) : List ℕ :=
  if shuffle then permf (List.range n) else List.range n

/-- The minority loop of `_OversamplingBalancePartitioner._get_sample_indices`
(balance.py lines 206-225).  Returns the labels warned about (`min_ct == 1`
sampling warnings, in loop order) and the accumulated `sample_indices`. -/
def overLoop (target : List ℕ) (r : ℚ) (majority nReq : ℕ)
    (draw : List ℕ → ℕ → List ℕ) : List ℕ → List ℕ × List ℕ
  | [] => ([], [])
  | m :: rest =>
    if m = majority then ([], [])
    else
      let ws : List ℕ := if cts target m = 1 then [m] else []
      let prev := overLoop target r majority nReq draw rest
      if (cts target m : ℚ) / (cts target majority : ℚ) ≥ r then
        (ws ++ prev.1, prev.2)
      else if (nReq : ℤ) - (cts target m : ℤ) ≤ 0 then
        (ws ++ prev.1, prev.2)
      else
        let pool := (List.range target.length).filter (fun i => target.getD i 0 = m)
        (ws ++ prev.1, draw pool (Int.toNat ((nReq : ℤ) - (cts target m : ℤ))) ++ prev.2)

/-- `_OversamplingBalancePartitioner._get_sample_indices` (balance.py lines
188-233): warnings recorded, and the returned row-index list.  `int(ratio *
cts[majority])` truncates toward zero, which is the floor since both factors
are nonnegative on every reachable call (ratio is validated positive). -/
def overSampleIndices (target index : List ℕ) (r : ℚ) (needsB shuffle : Bool)
    (draw : List ℕ → ℕ → List ℕ) (permf : List ℕ → List ℕ) : List ℕ × List ℕ :=
  if needsB = false then ([], defaultIndices target.length shuffle permf)
  else
    let majority := index.getLastD 0
    let nReq := max 1 (Int.toNat ⌊r * (cts target majority : ℚ)⌋)
    let res := overLoop target r majority nReq draw index
    let allIdx := List.range target.length ++ res.2
    (res.1, if shuffle then permf allIdx else allIdx.insertionSort (fun a b => a ≤ b))

/-- `_UndersamplingBalancePartitioner._get_sample_indices` (balance.py lines
244-274).  Note the early exit `return sorted(list(all_indices))` ignores
`shuffle`. -/
def underSampleIndices (target index : List ℕ) (r : ℚ) (needsB shuffle : Bool)
    (draw : List ℕ → ℕ → List ℕ) (permf : List ℕ → List ℕ) : List ℕ :=
  if needsB = false then defaultIndices target.length shuffle permf
  else
    let majority := index.getLastD 0
    let nextMost := index.getD (index.length - 2) 0
    let nReq := Int.toNat ⌊(1 / r) * (cts target nextMost : ℚ)⌋
    let allIdx := List.range target.length
    if cts target majority ≤ nReq then allIdx.insertionSort (fun a b => a ≤ b)
    else
      let majorityRecs := allIdx.filter (fun i => target.getD i 0 = majority)
      let minors := allIdx.filter (fun i => ¬ target.getD i 0 = majority)
          ++ draw majorityRecs nReq
      if shuffle then permf minors else minors.insertionSort (fun a b => a ≤ b)

/-- `_over_under_balance` (balance.py lines 312-328) with the oversampling
partitioner: validation, then the partitioner's index computation on the
validated state.  The result is the pair (warnings, row indices of the
returned frame). -/
def overBalance (target index : List ℕ) (r : ℚ) (shuffle : Bool)
    (draw : List ℕ → ℕ → List ℕ) (permf : List ℕ → List ℕ) :
    Except BalanceError (List ℕ × List ℕ) :=
  match validateXY target index r with
  | Except.error e => Except.error e
  | Except.ok needsB => Except.ok (overSampleIndices target index r needsB shuffle draw permf)

/-- `_over_under_balance` with the undersampling partitioner. -/
def underBalance (target index : List ℕ) (r : ℚ) (shuffle : Bool)
    (draw : List ℕ → ℕ → List ℕ) (permf : List ℕ → List ℕ) :
    Except BalanceError (List ℕ) :=
  match validateXY target index r with
  | Except.error e => Except.error e
  | Except.ok needsB => Except.ok (underSampleIndices target index r needsB shuffle draw permf)

/-- The minority loop of `SMOTEClassBalancer.balance` (balance.py lines
514-557), tracking only the label column `X` of the growing frame (feature
values are irrelevant to the control flow and class counts).  `cts` is
captured once before the loop, as in the code.  The k-NN step is the
external `sklearn` collaborator: `NearestNeighbors(n_neighbors=k).fit(pts)`
followed by `nn.kneighbors()` on the fitted set itself, which (query point
excluded from its own neighbors) requires at least `k + 1` fitted rows and
raises otherwise — modelled from the spec's neighbor-query capability as
`knnTooFew` when `n_samples < k + 1`.  Otherwise one synthetic
minority-labelled row is appended per drawn point. -/
def smoteLoop (target : List ℕ) (r : ℚ) (majority nReq k : ℕ)
    (draw : List ℕ → ℕ → List ℕ) : List ℕ → List ℕ → Except BalanceError (List ℕ)
  | X, [] => Except.ok X
  | X, m :: rest =>
    if m = majority then Except.ok X
    else if cts target m = 1 then Except.error (BalanceError.singleObservation m)
    else if (cts target m : ℚ) / (cts target majority : ℚ) ≥ r then
      smoteLoop target r majority nReq k draw X rest
    else if (nReq : ℤ) - (cts target m : ℤ) ≤ 0 then
      smoteLoop target r majority nReq k draw X rest
    else
      let nS := Int.toNat ((nReq : ℤ) - (cts target m : ℤ))
      let pool := (List.range X.length).filter (fun i => X.getD i 0 = m)
      let idcs := draw pool nS
      if nS < k + 1 then Except.error BalanceError.knnTooFew
      else smoteLoop target r majority nReq k draw (X ++ List.replicate idcs.length m) rest

/-- `SMOTEClassBalancer.balance` (balance.py lines 477-566) at the
label-column level: validation, the no-balancing short circuit, then the
minority loop.  The final shuffle permutes rows only and is not modelled
(no claim concerns it). -/
def smoteBalance (target index : List ℕ) (r : ℚ) (k : ℕ)
    (draw : List ℕ → ℕ → List ℕ) : Except BalanceError (List ℕ) :=
  match validateXY target index r with
  | Except.error e => Except.error e
  | Except.ok needsB =>
    if needsB = false then Except.ok target
    else
      let majority := index.getLastD 0
      let nReq := max 1 (Int.toNat ⌊r * (cts target majority : ℚ)⌋)
      smoteLoop target r majority nReq k draw target index

/-! ### Counting helpers -/

theorem labelCount_eq_countP (target out : List ℕ) (l : ℕ) :
    labelCount target out l = out.countP (fun i => target.getD i 0 = l) := by
  rw [labelCount, List.countP_eq_length_filter]

theorem labelCount_append (target a b : List ℕ) (l : ℕ) :
    labelCount target (a ++ b) l = labelCount target a l + labelCount target b l := by
  simp [labelCount_eq_countP, List.countP_append]

theorem labelCount_of_perm (target : List ℕ) {a b : List ℕ} (h : List.Perm a b) (l : ℕ) :
    labelCount target a l = labelCount target b l := by
  rw [labelCount_eq_countP, labelCount_eq_countP, h.countP_eq]

theorem labelCount_of_all_eq (target out : List ℕ) (m : ℕ)
    (h : ∀ i ∈ out, target.getD i 0 = m) :
    labelCount target out m = out.length := by
  rw [labelCount_eq_countP]
  exact List.countP_eq_length.2 (by simpa using h)

theorem labelCount_of_all_ne (target out : List ℕ) {m l : ℕ}
    (h : ∀ i ∈ out, target.getD i 0 = m) (hlm : l ≠ m) :
    labelCount target out l = 0 := by
  rw [labelCount_eq_countP]
  refine List.countP_eq_zero.2 ?_
  intro i hi
  rw [decide_eq_true_eq]
  intro hc
  exact hlm (hc.symm.trans (h i hi))

theorem mem_pool_label (target : List ℕ) (m i : ℕ)
    (hi : i ∈ (List.range target.length).filter (fun j => target.getD j 0 = m)) :
    target.getD i 0 = m := by
  simpa using (List.mem_filter.1 hi).2

/-! ### Theorems for C8, C9, C10 -/

/-- C8: a ratio outside `(0, 1]` makes every balancing operation fail with
the invalid-parameter error; with a valid ratio, more than 20 distinct
labels gives the too-many-classes error and fewer than 2 the
too-few-classes error.  The conclusions hold for every draw/permutation
oracle — the failure happens before any sampling is consulted. -/
theorem C8_validation_errors (target index : List ℕ) (r : ℚ) (k : ℕ) (shuffle : Bool)
    (draw : List ℕ → ℕ → List ℕ) (permf : List ℕ → List ℕ) :
    ((r ≤ 0 ∨ 1 < r) →
      overBalance target index r shuffle draw permf = Except.error BalanceError.badRatio
      ∧ underBalance target index r shuffle draw permf = Except.error BalanceError.badRatio
      ∧ smoteBalance target index r k draw = Except.error BalanceError.badRatio)
    ∧ (¬ (r ≤ 0 ∨ 1 < r) → List.Perm index target.dedup → 20 < target.dedup.length →
      overBalance target index r shuffle draw permf = Except.error BalanceError.tooManyClasses
      ∧ underBalance target index r shuffle draw permf = Except.error BalanceError.tooManyClasses
      ∧ smoteBalance target index r k draw = Except.error BalanceError.tooManyClasses)
    ∧ (¬ (r ≤ 0 ∨ 1 < r) → List.Perm index target.dedup → target.dedup.length < 2 →
      overBalance target index r shuffle draw permf = Except.error BalanceError.tooFewClasses
      ∧ underBalance target index r shuffle draw permf = Except.error BalanceError.tooFewClasses
      ∧ smoteBalance target index r k draw = Except.error BalanceError.tooFewClasses) := by
  refine ⟨?_, ?_, ?_⟩
  · intro h
    have hval : validateXY target index r = Except.error BalanceError.badRatio := by
      rw [validateXY, if_pos h]
    exact ⟨by rw [overBalance, hval], by rw [underBalance, hval], by rw [smoteBalance, hval]⟩
  · intro h hperm h20
    have hlen : index.length = target.dedup.length := hperm.length_eq
    have hval : validateXY target index r = Except.error BalanceError.tooManyClasses := by
      rw [validateXY, if_neg h, if_pos (by omega)]
    exact ⟨by rw [overBalance, hval], by rw [underBalance, hval], by rw [smoteBalance, hval]⟩
  · intro h hperm h2
    have hlen : index.length = target.dedup.length := hperm.length_eq
    have hval : validateXY target index r = Except.error BalanceError.tooFewClasses := by
      rw [validateXY, if_neg h, if_neg (by omega), if_pos (by omega)]
    exact ⟨by rw [overBalance, hval], by rw [underBalance, hval], by rw [smoteBalance, hval]⟩

/-- Witness for C8_validation_errors: ratio 2 > 1 is rejected; 21 distinct
labels are rejected; a single class is rejected. -/
theorem C8_validation_errors_witness :
    overBalance [0, 1] [0, 1] 2 false (fun _ _ => []) (fun l => l)
        = Except.error BalanceError.badRatio
    ∧ smoteBalance (List.range 21) (List.range 21) (1/2) 3 (fun _ _ => [])
        = Except.error BalanceError.tooManyClasses
    ∧ underBalance [0, 0] [0] (1/2) false (fun _ _ => []) (fun l => l)
        = Except.error BalanceError.tooFewClasses := by
  refine ⟨?_, ?_, ?_⟩
  · exact ((C8_validation_errors [0, 1] [0, 1] 2 3 false (fun _ _ => []) (fun l => l)).1
      (by norm_num)).1
  · refine (((C8_validation_errors (List.range 21) (List.range 21) (1/2) 3 false
      (fun _ _ => []) (fun l => l)).2.1 (by norm_num) ?_ ?_).2.2)
    · rw [List.Nodup.dedup (List.nodup_range 21)]
    · rw [List.Nodup.dedup (List.nodup_range 21)]
      simp
  · refine (((C8_validation_errors [0, 0] [0] (1/2) 3 false
      (fun _ _ => []) (fun l => l)).2.2 (by norm_num) ?_ ?_).2.1)
    · decide
    · decide

/-- C9: with shuffling off, the row-index lists returned by the oversampling
and undersampling partitioners (including the no-balancing identity path,
`needsB = false`) are sorted ascending; with shuffling on, each returned
list is a permutation of the corresponding non-shuffled result (same draws),
i.e. the same multiset of row positions in a different order. -/
theorem C9_index_order_invariant (target index : List ℕ) (r : ℚ) (needsB : Bool)
    (draw : List ℕ → ℕ → List ℕ) (permf : List ℕ → List ℕ)
    (hperm : ∀ l, List.Perm (permf l) l) :
    ((overSampleIndices target index r needsB false draw permf).2.Sorted (fun a b => a ≤ b)
      ∧ (underSampleIndices target index r needsB false draw permf).Sorted (fun a b => a ≤ b))
    ∧ (List.Perm (overSampleIndices target index r needsB true draw permf).2
        (overSampleIndices target index r needsB false draw permf).2
      ∧ List.Perm (underSampleIndices target index r needsB true draw permf)
        (underSampleIndices target index r needsB false draw permf)) := by
  cases needsB with
  | false =>
    refine ⟨⟨?_, ?_⟩, ?_, ?_⟩
    · simpa [overSampleIndices, defaultIndices] using List.sorted_le_range target.length
    · simpa [underSampleIndices, defaultIndices] using List.sorted_le_range target.length
    · simpa [overSampleIndices, defaultIndices] using hperm (List.range target.length)
    · simpa [underSampleIndices, defaultIndices] using hperm (List.range target.length)
  | true =>
    simp only [overSampleIndices, underSampleIndices, Bool.true_eq_false, if_false]
    refine ⟨⟨List.sorted_insertionSort _ _, ?_⟩, ?_, ?_⟩
    · by_cases h : cts target (index.getLastD 0)
          ≤ Int.toNat ⌊1 / r * (cts target (index.getD (index.length - 2) 0) : ℚ)⌋
      · rw [if_pos h]
        exact List.sorted_insertionSort _ _
      · rw [if_neg h]
        exact List.sorted_insertionSort _ _
    · exact (hperm _).trans (List.perm_insertionSort _ _).symm
    · by_cases h : cts target (index.getLastD 0)
          ≤ Int.toNat ⌊1 / r * (cts target (index.getD (index.length - 2) 0) : ℚ)⌋
      · rw [if_pos h, if_pos h]
      · rw [if_neg h, if_neg h]
        exact (hperm _).trans (List.perm_insertionSort _ _).symm

/-- Witness for C9_index_order_invariant with the identity permutation
oracle and a constant draw oracle. -/
theorem C9_index_order_invariant_witness :
    (((overSampleIndices [0, 0, 1] [1, 0] (3/5) true false (fun _ n => List.replicate n 2)
        (fun l => l)).2.Sorted (fun a b => a ≤ b))
      ∧ ((underSampleIndices [0, 0, 1] [1, 0] (3/5) true false (fun _ n => List.replicate n 2)
        (fun l => l)).Sorted (fun a b => a ≤ b)))
    ∧ (List.Perm (overSampleIndices [0, 0, 1] [1, 0] (3/5) true true
          (fun _ n => List.replicate n 2) (fun l => l)).2
        (overSampleIndices [0, 0, 1] [1, 0] (3/5) true false
          (fun _ n => List.replicate n 2) (fun l => l)).2
      ∧ List.Perm (underSampleIndices [0, 0, 1] [1, 0] (3/5) true true
          (fun _ n => List.replicate n 2) (fun l => l))
        (underSampleIndices [0, 0, 1] [1, 0] (3/5) true false
          (fun _ n => List.replicate n 2) (fun l => l))) :=
  C9_index_order_invariant [0, 0, 1] [1, 0] (3/5) true
    (fun _ n => List.replicate n 2) (fun l => l) (fun l => List.Perm.refl l)

/-- Input for C10: 6 rows of class 0 and 2 rows of class 1 (ratio 1/2,
k = 3).  All documented SMOTE preconditions hold, yet
`n_samples = n_required - count[minority] = 3 - 2 = 1 ≤ k`, so the k-NN
query over the one drawn point cannot return 3 neighbors. -/
def targetC10 : List ℕ := List.replicate 6 0 ++ List.replicate 2 1

/-- C10: an input satisfying every documented SMOTE precondition (ratio in
`(0, 1]`, 2 ≤ classes ≤ 20 — here the valid index has length 2 — every
minority count at least 2, balancing needed) on which `SMOTEClassBalancer.balance`
fails with the internal k-NN error, for every random draw: the drawn subset
holds `n_samples = 1 < k + 1 = 4` rows. -/
theorem C10_smote_knn_failure :
    ((0 : ℚ) < 1/2 ∧ (1/2 : ℚ) ≤ 1)
    ∧ ValidIndex targetC10 [1, 0]
    ∧ 2 ≤ cts targetC10 1
    ∧ ((cts targetC10 1 : ℚ) / (cts targetC10 0 : ℚ) < 1/2)
    ∧ (max 1 (Int.toNat ⌊(1/2 : ℚ) * (cts targetC10 0 : ℚ)⌋) - cts targetC10 1 ≤ 3)
    ∧ ∀ draw : List ℕ → ℕ → List ℕ,
        smoteBalance targetC10 [1, 0] (1/2) 3 draw = Except.error BalanceError.knnTooFew := by
  have hc1 : cts targetC10 1 = 2 := by decide
  have hc0 : cts targetC10 0 = 6 := by decide
  have hfloor : ⌊(1/2 : ℚ) * ((6 : ℕ) : ℚ)⌋ = 3 := by norm_num
  refine ⟨⟨by norm_num, by norm_num⟩, ⟨by decide, by decide⟩, by decide, ?_, ?_, ?_⟩
  · rw [hc1, hc0]
    norm_num
  · rw [hc1, hc0, hfloor]
    decide
  · intro draw
    have hval : validateXY targetC10 [1, 0] (1/2) = Except.ok true := by
      rw [validateXY, if_neg (by norm_num), if_neg (by norm_num), if_neg (by norm_num)]
      congr 1
      rw [show ([1, 0] : List ℕ).headD 0 = 1 from rfl,
        show ([1, 0] : List ℕ).getLastD 0 = 0 from rfl, hc1, hc0]
      exact decide_eq_true (by norm_num)
    simp only [smoteBalance, hval, Bool.true_eq_false, if_false]
    rw [show ([1, 0] : List ℕ).getLastD 0 = 0 from rfl, hc0, hfloor]
    rw [show max 1 (Int.toNat 3) = 3 from rfl]
    rw [smoteLoop]
    rw [if_neg (by decide : ¬ (1 = 0)), hc1]
    rw [if_neg (by decide : ¬ ((2 : ℕ) = 1))]
    rw [hc0]
    rw [if_neg (by norm_num : ¬ (((2 : ℕ) : ℚ) / ((6 : ℕ) : ℚ) ≥ 1/2))]
    rw [if_neg (by norm_num : ¬ (((3 : ℕ) : ℤ) - ((2 : ℕ) : ℤ) ≤ 0))]
    rw [if_pos]
    norm_num

theorem getLastD_mem : ∀ (l : List ℕ) (d : ℕ), l ≠ [] → l.getLastD d ∈ l
  | [], _, h => absurd rfl h
  | a :: l, d, _ => by
    rw [List.getLastD_cons]
    cases l with
    | nil => simp [List.getLastD]
    | cons b t =>
      exact List.mem_cons_of_mem a (getLastD_mem (b :: t) a (by simp))

theorem cts_pos_of_mem {target : List ℕ} {l : ℕ} (h : l ∈ target) : 0 < cts target l := by
  rw [cts]
  exact List.length_pos.2 (List.ne_nil_of_mem (List.mem_filter.2 ⟨h, by simp⟩))

/-- C7: on every input where some class has exactly one member and balancing
is needed, SMOTE fails with the fatal single-observation error before
producing any synthetic row, while the oversampling balancer on the same
input succeeds, merely recording a non-fatal sampling warning for a
singleton class. -/
theorem C7_singleton_asymmetry (target index : List ℕ) (r : ℚ) (k : ℕ) (shuffle : Bool)
    (draw : List ℕ → ℕ → List ℕ) (permf : List ℕ → List ℕ)
    (hidx : ValidIndex target index)
    (h2 : 2 ≤ index.length) (h20 : index.length ≤ 20)
    (hr0 : 0 < r) (hr1 : r ≤ 1)
    (hneed : (cts target (index.headD 0) : ℚ) / (cts target (index.getLastD 0) : ℚ) < r)
    (hsing : ∃ l ∈ index, cts target l = 1) :
    (∃ m, smoteBalance target index r k draw = Except.error (BalanceError.singleObservation m)
      ∧ cts target m = 1)
    ∧ (∃ ws out, overBalance target index r shuffle draw permf = Except.ok (ws, out)
      ∧ ∃ m, cts target m = 1 ∧ m ∈ ws) := by
  -- index is nonempty; name its head and tail
  obtain ⟨h, t, rfl⟩ : ∃ h t, index = h :: t := by
    cases index with
    | nil => simp at h2
    | cons h t => exact ⟨h, t, rfl⟩
  have hmem_target : ∀ l, l ∈ h :: t → l ∈ target := by
    intro l hl
    exact List.mem_dedup.1 (hidx.1.mem_iff.1 hl)
  -- the head has the minimal count, hence count 1
  have hcth : cts target h = 1 := by
    obtain ⟨l, hl, hl1⟩ := hsing
    have hle : cts target h ≤ 1 := by
      rcases List.mem_cons.1 hl with rfl | hlt
      · exact le_of_eq hl1
      · exact hl1 ▸ (List.pairwise_cons.1 hidx.2).1 l hlt
    have hge : 1 ≤ cts target h := cts_pos_of_mem (hmem_target h (List.mem_cons_self h t))
    omega
  -- the majority label has count > 1
  set maj := (h :: t).getLastD 0 with hmaj
  have hmajmem : maj ∈ h :: t := getLastD_mem (h :: t) 0 (by simp)
  have hmajpos : 1 ≤ cts target maj := cts_pos_of_mem (hmem_target maj hmajmem)
  have hneed' : (1 : ℚ) / (cts target maj : ℚ) < r := by
    rw [show (h :: t).headD 0 = h from rfl] at hneed
    rw [hcth] at hneed
    exact_mod_cast hneed
  have hmajgt : 1 < cts target maj := by
    by_contra hcon
    have : cts target maj = 1 := by omega
    rw [this] at hneed'
    norm_num at hneed'
    exact absurd (lt_of_lt_of_le hneed' hr1) (lt_irrefl 1)
  have hhm : h ≠ maj := by
    intro he
    rw [← he, hcth] at hmajgt
    omega
  -- validation succeeds with needs_balancing = true
  have hval : validateXY target (h :: t) r = Except.ok true := by
    rw [validateXY, if_neg (by push_neg; exact ⟨hr0, hr1⟩),
      if_neg (by omega), if_neg (by omega)]
    exact congrArg Except.ok (decide_eq_true hneed)
  constructor
  · refine ⟨h, ?_, hcth⟩
    simp only [smoteBalance, hval, Bool.true_eq_false, if_false]
    rw [smoteLoop, if_neg hhm, if_pos hcth]
  · refine ⟨(overSampleIndices target (h :: t) r true shuffle draw permf).1,
      (overSampleIndices target (h :: t) r true shuffle draw permf).2, ?_, h, hcth, ?_⟩
    · simp only [overBalance, hval]
    · simp only [overSampleIndices, Bool.true_eq_false, if_false]
      simp only [overLoop, if_neg hhm, if_pos hcth]
      split_ifs <;> simp

/-- Witness for C7_singleton_asymmetry: two rows of class 0 and a single row
of class 1, ratio 3/5. -/
theorem C7_singleton_asymmetry_witness :
    cts [0, 0, 1] 1 = 1
    ∧ ((∃ m, smoteBalance [0, 0, 1] [1, 0] (3/5) 3 (fun _ _ => [])
          = Except.error (BalanceError.singleObservation m) ∧ cts [0, 0, 1] m = 1)
      ∧ (∃ ws out, overBalance [0, 0, 1] [1, 0] (3/5) false (fun _ _ => []) (fun l => l)
          = Except.ok (ws, out) ∧ ∃ m, cts [0, 0, 1] m = 1 ∧ m ∈ ws)) :=
  ⟨by decide,
    C7_singleton_asymmetry [0, 0, 1] [1, 0] (3/5) 3 false (fun _ _ => []) (fun l => l)
      ⟨by decide, by decide⟩ (by decide) (by decide) (by norm_num) (by norm_num)
      (by
        rw [show ([1, 0] : List ℕ).headD 0 = 1 from rfl,
          show ([1, 0] : List ℕ).getLastD 0 = 0 from rfl,
          (by decide : cts [0, 0, 1] 1 = 1),
          (by decide : cts [0, 0, 1] 0 = 2)]
        norm_num)
      ⟨1, by decide, by decide⟩⟩

/-! ### C5: oversampling end-to-end scenario -/

/-- Input for C5: 100 rows of class 0, 30 of class 1, 25 of class 2. -/
def targetC5 : List ℕ := List.replicate 100 0 ++ List.replicate 30 1 ++ List.replicate 25 2

/-- The counts 25 < 30 < 100 are distinct, so the ascending-by-count label
ordering for `targetC5` is uniquely `[2, 1, 0]`. -/
theorem validIndex_C5 (index : List ℕ) (hidx : ValidIndex targetC5 index) :
    index = [2, 1, 0] := by
  have hperm : List.Perm index ([0, 1, 2] : List ℕ) := by
    have hd : targetC5.dedup = [0, 1, 2] := by decide
    rw [← hd]
    exact hidx.1
  have key : ∀ m ∈ ([0, 1, 2] : List ℕ).permutations',
      m.Pairwise (fun a b => cts targetC5 a ≤ cts targetC5 b) → m = [2, 1, 0] := by decide
  exact key index (List.mem_permutations'.2 hperm) hidx.2

theorem overLoop_C5 (draw : List ℕ → ℕ → List ℕ) :
    overLoop targetC5 (1/2) 0 50 draw [2, 1, 0]
      = ([], draw ((List.range targetC5.length).filter (fun i => targetC5.getD i 0 = 2)) 25
          ++ draw ((List.range targetC5.length).filter (fun i => targetC5.getD i 0 = 1)) 20) := by
  have hc0 : cts targetC5 0 = 100 := by decide
  have hc1 : cts targetC5 1 = 30 := by decide
  have hc2 : cts targetC5 2 = 25 := by decide
  have e2 : ¬ ((25 : ℚ) / 100 ≥ 1/2) := by norm_num
  have e1 : ¬ ((30 : ℚ) / 100 ≥ 1/2) := by norm_num
  have n2 : ¬ ((50 : ℤ) - 25 ≤ 0) := by norm_num
  have n1 : ¬ ((50 : ℤ) - 30 ≤ 0) := by norm_num
  norm_num [overLoop, hc0, hc1, hc2, e1, e2, n1, n2]
  rw [show Int.toNat 25 = 25 from rfl, show Int.toNat 20 = 20 from rfl]

theorem overSampleIndices_C5 (shuffle : Bool) (draw : List ℕ → ℕ → List ℕ)
    (permf : List ℕ → List ℕ) :
    overSampleIndices targetC5 [2, 1, 0] (1/2) true shuffle draw permf
      = ([],
        if shuffle then
          permf (List.range targetC5.length
            ++ (draw ((List.range targetC5.length).filter (fun i => targetC5.getD i 0 = 2)) 25
              ++ draw ((List.range targetC5.length).filter (fun i => targetC5.getD i 0 = 1)) 20))
        else
          (List.range targetC5.length
            ++ (draw ((List.range targetC5.length).filter (fun i => targetC5.getD i 0 = 2)) 25
              ++ draw ((List.range targetC5.length).filter (fun i => targetC5.getD i 0 = 1)) 20)).insertionSort
            (fun a b => a ≤ b)) := by
  have hc0 : cts targetC5 0 = 100 := by decide
  simp only [overSampleIndices, Bool.true_eq_false, if_false]
  rw [show ([2, 1, 0] : List ℕ).getLastD 0 = 0 from rfl, hc0]
  rw [show ⌊(1/2 : ℚ) * ((100 : ℕ) : ℚ)⌋ = 50 by norm_num]
  rw [show max 1 (Int.toNat 50) = 50 from rfl]
  rw [overLoop_C5 draw]

/-- C5: on 100×class-0, 30×class-1, 25×class-2 with ratio 1/2, the
oversampling balancer returns, for every draw oracle (drawing with
replacement from each deficient minority's own rows, per
`n_required = max(1, floor(ratio * count[majority])) = 50`) and every
shuffle choice, a dataset with exactly 100 rows of class 0, 50 of class 1
and 50 of class 2. -/
theorem C5_oversample_scenario (index : List ℕ) (hidx : ValidIndex targetC5 index)
    (draw : List ℕ → ℕ → List ℕ)
    (hdraw : ∀ pool n, pool ≠ [] → (draw pool n).length = n ∧ ∀ i ∈ draw pool n, i ∈ pool)
    (permf : List ℕ → List ℕ) (hperm : ∀ l, List.Perm (permf l) l) (shuffle : Bool) :
    ∃ ws out, overBalance targetC5 index (1/2) shuffle draw permf = Except.ok (ws, out)
      ∧ labelCount targetC5 out 0 = 100
      ∧ labelCount targetC5 out 1 = 50
      ∧ labelCount targetC5 out 2 = 50 := by
  have hidx' := validIndex_C5 index hidx
  subst hidx'
  have hc0 : cts targetC5 0 = 100 := by decide
  have hc2 : cts targetC5 2 = 25 := by decide
  have hval : validateXY targetC5 [2, 1, 0] (1/2) = Except.ok true := by
    rw [validateXY, if_neg (by norm_num), if_neg (by decide), if_neg (by decide)]
    rw [show ([2, 1, 0] : List ℕ).headD 0 = 2 from rfl,
      show ([2, 1, 0] : List ℕ).getLastD 0 = 0 from rfl, hc2, hc0]
    exact congrArg Except.ok (decide_eq_true (by norm_num))
  -- name the two minority pools and the concatenated index list
  set p2 := (List.range targetC5.length).filter (fun i => targetC5.getD i 0 = 2) with hp2
  set p1 := (List.range targetC5.length).filter (fun i => targetC5.getD i 0 = 1) with hp1
  set A := List.range targetC5.length ++ (draw p2 25 ++ draw p1 20) with hA
  have hp2ne : p2 ≠ [] := by rw [hp2]; decide
  have hp1ne : p1 ≠ [] := by rw [hp1]; decide
  have hall2 : ∀ i ∈ draw p2 25, targetC5.getD i 0 = 2 := fun i hi =>
    mem_pool_label targetC5 2 i ((hdraw p2 25 hp2ne).2 i hi)
  have hall1 : ∀ i ∈ draw p1 20, targetC5.getD i 0 = 1 := fun i hi =>
    mem_pool_label targetC5 1 i ((hdraw p1 20 hp1ne).2 i hi)
  have hlen2 : (draw p2 25).length = 25 := (hdraw p2 25 hp2ne).1
  have hlen1 : (draw p1 20).length = 20 := (hdraw p1 20 hp1ne).1
  have hcountA : ∀ l, labelCount targetC5 A l
      = labelCount targetC5 (List.range targetC5.length) l
        + labelCount targetC5 (draw p2 25) l + labelCount targetC5 (draw p1 20) l := by
    intro l
    rw [hA, labelCount_append, labelCount_append, Nat.add_assoc]
  have hout : ∀ l, labelCount targetC5
      (if shuffle then permf A else A.insertionSort (fun a b => a ≤ b)) l
      = labelCount targetC5 A l := by
    intro l
    cases shuffle with
    | false =>
      rw [if_neg (by decide : ¬ (false = true))]
      exact labelCount_of_perm targetC5 (List.perm_insertionSort _ A) l
    | true =>
      rw [if_pos rfl]
      exact labelCount_of_perm targetC5 (hperm A) l
  refine ⟨[], if shuffle then permf A else A.insertionSort (fun a b => a ≤ b), ?_, ?_, ?_, ?_⟩
  · rw [overBalance, hval]
    dsimp only
    rw [overSampleIndices_C5 shuffle draw permf]
  · rw [hout 0, hcountA 0]
    rw [labelCount_of_all_ne targetC5 (draw p2 25) hall2 (by decide),
      labelCount_of_all_ne targetC5 (draw p1 20) hall1 (by decide)]
    have : labelCount targetC5 (List.range targetC5.length) 0 = 100 := by decide
    omega
  · rw [hout 1, hcountA 1]
    rw [labelCount_of_all_ne targetC5 (draw p2 25) hall2 (by decide),
      labelCount_of_all_eq targetC5 (draw p1 20) 1 hall1, hlen1]
    have : labelCount targetC5 (List.range targetC5.length) 1 = 30 := by decide
    omega
  · rw [hout 2, hcountA 2]
    rw [labelCount_of_all_eq targetC5 (draw p2 25) 2 hall2, hlen2,
      labelCount_of_all_ne targetC5 (draw p1 20) hall1 (by decide)]
    have : labelCount targetC5 (List.range targetC5.length) 2 = 25 := by decide
    omega

/-- A concrete with-replacement draw oracle: repeat the first pool element. -/
def drawHead (pool : List ℕ) (n : ℕ) : List ℕ := List.replicate n (pool.headD 0)

theorem drawHead_valid (pool : List ℕ) (n : ℕ) (hne : pool ≠ []) :
    (drawHead pool n).length = n ∧ ∀ i ∈ drawHead pool n, i ∈ pool := by
  constructor
  · simp [drawHead]
  · intro i hi
    have he : i = pool.headD 0 := List.eq_of_mem_replicate hi
    subst he
    cases pool with
    | nil => exact absurd rfl hne
    | cons a t => exact List.mem_cons_self a t

/-- Witness for C5_oversample_scenario with the repeat-head draw oracle and
the identity permutation oracle. -/
theorem C5_oversample_scenario_witness :
    ∃ ws out,
      overBalance targetC5 [2, 1, 0] (1/2) false drawHead (fun l => l) = Except.ok (ws, out)
        ∧ labelCount targetC5 out 0 = 100
        ∧ labelCount targetC5 out 1 = 50
        ∧ labelCount targetC5 out 2 = 50 :=
  C5_oversample_scenario [2, 1, 0] ⟨by decide, by decide⟩ drawHead
    (fun pool n hne => drawHead_valid pool n hne) (fun l => l)
    (fun l => List.Perm.refl l) false

/-! ### C6: undersampling end-to-end scenario -/

/-- Input for C6: 150 rows of class 0, 30 of class 1, 10 of class 2. -/
def targetC6 : List ℕ := List.replicate 150 0 ++ List.replicate 30 1 ++ List.replicate 10 2

/-- The counts 10 < 30 < 150 are distinct, so the ascending-by-count label
ordering for `targetC6` is uniquely `[2, 1, 0]`. -/
theorem validIndex_C6 (index : List ℕ) (hidx : ValidIndex targetC6 index) :
    index = [2, 1, 0] := by
  have hperm : List.Perm index ([0, 1, 2] : List ℕ) := by
    have hd : targetC6.dedup = [0, 1, 2] := by decide
    rw [← hd]
    exact hidx.1
  have key : ∀ m ∈ ([0, 1, 2] : List ℕ).permutations',
      m.Pairwise (fun a b => cts targetC6 a ≤ cts targetC6 b) → m = [2, 1, 0] := by decide
  exact key index (List.mem_permutations'.2 hperm) hidx.2

theorem underSampleIndices_C6 (shuffle : Bool) (draw : List ℕ → ℕ → List ℕ)
    (permf : List ℕ → List ℕ) :
    underSampleIndices targetC6 [2, 1, 0] (1/2) true shuffle draw permf
      = (if shuffle then
          permf ((List.range targetC6.length).filter (fun i => ¬ targetC6.getD i 0 = 0)
            ++ draw ((List.range targetC6.length).filter (fun i => targetC6.getD i 0 = 0)) 60)
        else
          ((List.range targetC6.length).filter (fun i => ¬ targetC6.getD i 0 = 0)
            ++ draw ((List.range targetC6.length).filter (fun i => targetC6.getD i 0 = 0)) 60).insertionSort
            (fun a b => a ≤ b)) := by
  have hc0 : cts targetC6 0 = 150 := by decide
  have hc1 : cts targetC6 1 = 30 := by decide
  simp only [underSampleIndices, Bool.true_eq_false, if_false]
  rw [show ([2, 1, 0] : List ℕ).getLastD 0 = 0 from rfl,
    show ([2, 1, 0] : List ℕ).getD (([2, 1, 0] : List ℕ).length - 2) 0 = 1 from rfl,
    hc0, hc1]
  rw [show ⌊(1 / (1/2 : ℚ)) * ((30 : ℕ) : ℚ)⌋ = 60 by norm_num]
  rw [show Int.toNat 60 = 60 from rfl]
  rw [if_neg (by decide : ¬ ((150 : ℕ) ≤ 60))]

/-- C6: on 150×class-0, 30×class-1, 10×class-2 with ratio 1/2, the
undersampling balancer keeps all non-majority rows and draws
`n_required = floor(count[next_most] / ratio) = 60` majority rows without
replacement, so for every valid draw oracle and shuffle choice the result
has exactly 60 rows of class 0, 30 of class 1 and 10 of class 2. -/
theorem C6_undersample_scenario (index : List ℕ) (hidx : ValidIndex targetC6 index)
    (draw : List ℕ → ℕ → List ℕ)
    (hdraw : ∀ pool n, pool ≠ [] → n ≤ pool.length → pool.Nodup →
      (draw pool n).length = n ∧ (∀ i ∈ draw pool n, i ∈ pool) ∧ (draw pool n).Nodup)
    (permf : List ℕ → List ℕ) (hperm : ∀ l, List.Perm (permf l) l) (shuffle : Bool) :
    ∃ out, underBalance targetC6 index (1/2) shuffle draw permf = Except.ok out
      ∧ labelCount targetC6 out 0 = 60
      ∧ labelCount targetC6 out 1 = 30
      ∧ labelCount targetC6 out 2 = 10 := by
  have hidx' := validIndex_C6 index hidx
  subst hidx'
  have hc0 : cts targetC6 0 = 150 := by decide
  have hc2 : cts targetC6 2 = 10 := by decide
  have hval : validateXY targetC6 [2, 1, 0] (1/2) = Except.ok true := by
    rw [validateXY, if_neg (by norm_num), if_neg (by decide), if_neg (by decide)]
    rw [show ([2, 1, 0] : List ℕ).headD 0 = 2 from rfl,
      show ([2, 1, 0] : List ℕ).getLastD 0 = 0 from rfl, hc2, hc0]
    exact congrArg Except.ok (decide_eq_true (by norm_num))
  set p0 := (List.range targetC6.length).filter (fun i => targetC6.getD i 0 = 0) with hp0
  set mi := (List.range targetC6.length).filter (fun i => ¬ targetC6.getD i 0 = 0) with hmi
  set A := mi ++ draw p0 60 with hA
  have hp0ne : p0 ≠ [] := by rw [hp0]; decide
  have hp0len : (60 : ℕ) ≤ p0.length := by rw [hp0]; decide
  have hp0nd : p0.Nodup := by rw [hp0]; decide
  have hall0 : ∀ i ∈ draw p0 60, targetC6.getD i 0 = 0 := fun i hi =>
    mem_pool_label targetC6 0 i ((hdraw p0 60 hp0ne hp0len hp0nd).2.1 i hi)
  have hlen0 : (draw p0 60).length = 60 := (hdraw p0 60 hp0ne hp0len hp0nd).1
  have hcountA : ∀ l, labelCount targetC6 A l
      = labelCount targetC6 mi l + labelCount targetC6 (draw p0 60) l := by
    intro l
    rw [hA, labelCount_append]
  have hout : ∀ l, labelCount targetC6
      (if shuffle then permf A else A.insertionSort (fun a b => a ≤ b)) l
      = labelCount targetC6 A l := by
    intro l
    cases shuffle with
    | false =>
      rw [if_neg (by decide : ¬ (false = true))]
      exact labelCount_of_perm targetC6 (List.perm_insertionSort _ A) l
    | true =>
      rw [if_pos rfl]
      exact labelCount_of_perm targetC6 (hperm A) l
  refine ⟨if shuffle then permf A else A.insertionSort (fun a b => a ≤ b), ?_, ?_, ?_, ?_⟩
  · rw [underBalance, hval]
    dsimp only
    rw [underSampleIndices_C6 shuffle draw permf]
  · rw [hout 0, hcountA 0,
      labelCount_of_all_eq targetC6 (draw p0 60) 0 hall0, hlen0]
    have : labelCount targetC6 mi 0 = 0 := by rw [hmi]; decide
    omega
  · rw [hout 1, hcountA 1,
      labelCount_of_all_ne targetC6 (draw p0 60) hall0 (by decide)]
    have : labelCount targetC6 mi 1 = 30 := by rw [hmi]; decide
    omega
  · rw [hout 2, hcountA 2,
      labelCount_of_all_ne targetC6 (draw p0 60) hall0 (by decide)]
    have : labelCount targetC6 mi 2 = 10 := by rw [hmi]; decide
    omega

/-- A concrete without-replacement draw oracle: the first `n` pool
elements. -/
def drawTake (pool : List ℕ) (n : ℕ) : List ℕ := pool.take n

theorem drawTake_valid (pool : List ℕ) (n : ℕ) (hlen : n ≤ pool.length)
    (hnd : pool.Nodup) :
    (drawTake pool n).length = n ∧ (∀ i ∈ drawTake pool n, i ∈ pool)
      ∧ (drawTake pool n).Nodup := by
  refine ⟨?_, ?_, ?_⟩
  · rw [drawTake, List.length_take]
    omega
  · intro i hi
    exact List.take_subset n pool hi
  · exact hnd.sublist (List.take_sublist n pool)

/-- Witness for C6_undersample_scenario with the take-prefix draw oracle and
the identity permutation oracle. -/
theorem C6_undersample_scenario_witness :
    ∃ out,
      underBalance targetC6 [2, 1, 0] (1/2) false drawTake (fun l => l) = Except.ok out
        ∧ labelCount targetC6 out 0 = 60
        ∧ labelCount targetC6 out 1 = 30
        ∧ labelCount targetC6 out 2 = 10 :=
  C6_undersample_scenario [2, 1, 0] ⟨by decide, by decide⟩ drawTake
    (fun pool n _ hlen hnd => drawTake_valid pool n hlen hnd) (fun l => l)
    (fun l => List.Perm.refl l) false
